import Mathlib

/-!
Shallow embedding of src/cartogram.py (the Dougenik-Chrisman-Niemeyer
cartogram function).  Real-number arithmetic models the floating-point
arithmetic of the source exactly; Lean division is total with x / 0 = 0,
so a separate definedness-tracking model (Option-valued arithmetic, at the
end of the definitions) is used for the claims about division by zero.
-/

noncomputable section

namespace Cartogram

open Real

/-- A 2-D coordinate, written (x, y) — one row of the coordinate matrix. -/
abbrev Pt := ℝ × ℝ

/-- A shapely polygon: the closed exterior ring (exterior.coords) plus the
interior rings (polygon.interiors). -/
structure SPolygon where
  ring : List Pt
  holes : List (List Pt)

instance : Inhabited SPolygon := ⟨⟨[], []⟩⟩

theorem SPolygon.eta (p : SPolygon) : SPolygon.mk p.ring p.holes = p := rfl

/-- Shoelace sum over the consecutive vertex pairs of a closed ring:
the signed double area used by shapely for polygon area and centroid. -/
def shoelace : List Pt → ℝ
  | p :: q :: r => (p.1 * q.2 - q.1 * p.2) + shoelace (q :: r)
  | _ => 0

/-- Absolute area of one ring (shapely ring area). -/
def ringArea (r : List Pt) : ℝ := |shoelace r| / 2

/-- Shapely polygon area (line 43, polygons.area): exterior ring area minus
the areas of the interior rings. -/
def area (p : SPolygon) : ℝ := ringArea p.ring - (p.holes.map ringArea).sum

/-- First-moment shoelace sum in x over a ring (standard polygon centroid
numerator before the 1/(6A) factor). -/
def momentX : List Pt → ℝ
  | p :: q :: r => (p.1 + q.1) * (p.1 * q.2 - q.1 * p.2) + momentX (q :: r)
  | _ => 0

/-- First-moment shoelace sum in y over a ring. -/
def momentY : List Pt → ℝ
  | p :: q :: r => (p.2 + q.2) * (p.1 * q.2 - q.1 * p.2) + momentY (q :: r)
  | _ => 0

/-- Moment of a ring normalized to positive (counterclockwise) orientation. -/
def orientMX (r : List Pt) : ℝ := if shoelace r < 0 then -momentX r else momentX r

/-- Moment of a ring normalized to positive orientation, y component. -/
def orientMY (r : List Pt) : ℝ := if shoelace r < 0 then -momentY r else momentY r

/-- Shapely polygon centroid (line 42, polygons.centroid): area-weighted
centroid of the region bounded by the exterior ring minus the holes. -/
def centroid (p : SPolygon) : Pt :=
  ((orientMX p.ring - (p.holes.map orientMX).sum) / (6 * area p),
   (orientMY p.ring - (p.holes.map orientMY).sum) / (6 * area p))

/-- Far-field force (line 77): Fijs = mass * radius / distance. -/
def Fij (m r d : ℝ) : ℝ := m * r / d

/-- Near-field force (line 78):
Fbij = mass * (distance / radius)^2 * (4 - 3 * distance / radius). -/
def Fbij (m r d : ℝ) : ℝ := m * (d / r) ^ 2 * (4 - 3 * d / r)

/-- Branch selection (line 79) and scaling (line 80): the near-field value
replaces the far-field one when distance <= radius, and the result is
multiplied by force_reduction_factor / distance. -/
def scaledForce (frf m r d : ℝ) : ℝ :=
  (if d ≤ r then Fbij m r d else Fij m r d) * (frf / d)

/-- Euclidean distance from a centroid row to the vertex (line 73). -/
def dist (c v : Pt) : ℝ := Real.sqrt ((c.1 - v.1) ^ 2 + (c.2 - v.2) ^ 2)

/-- Elementwise scaled force over the mass, radius and distance arrays
(lines 77-80). -/
def scaledForces (frf : ℝ) : List ℝ → List ℝ → List ℝ → List ℝ
  | m :: ms, r :: rs, d :: ds => scaledForce frf m r d :: scaledForces frf ms rs ds
  | _, _, _ => []

/-- Displace one vertex (lines 73-84): compute the distances to all
centroids, the scaled force array, and add the dot product of the force
array with the centroid deltas to the vertex. -/
def displaceVertex (cs : List Pt) (radius mass : List ℝ) (frf : ℝ) (v : Pt) : Pt :=
  let ds := cs.map (fun c => dist c v)
  let Fs := scaledForces frf mass radius ds
  (v.1 + (List.zipWith (fun F c => F * (v.1 - c.1)) Fs cs).sum,
   v.2 + (List.zipWith (fun F c => F * (v.2 - c.2)) Fs cs).sum)

/-- Index of the first row of the coordinate matrix equal to u
(line 68, np.where(...)[0] followed by taking coord_idx[0]). -/
def findFirst (u : Pt) : List Pt → Option ℕ
  | [] => none
  | p :: t => if p = u then some 0 else (findFirst u t).map (· + 1)

/-- One pass of the inner loop body (lines 66-84) for one unique coordinate
value u: locate the first ring position currently holding u, displace that
row in place, and leave every other position — including the other
positions holding u — untouched.  (The none branch is unreachable from the
source's call sites: u is drawn from the rows of the matrix.) -/
def distortStep (cs : List Pt) (radius mass : List ℝ) (frf : ℝ)
    (coords : List Pt) (u : Pt) : List Pt :=
  match findFirst u coords with
  | none => coords
  | some i =>
    let v := coords.getD i (0, 0)
    coords.set i (displaceVertex cs radius mass frf v)

/-- Lexicographic order on coordinate rows, as used by np.unique(axis=0). -/
def lexLE (p q : Pt) : Prop := p.1 < q.1 ∨ (p.1 = q.1 ∧ p.2 ≤ q.2)

instance : DecidableRel lexLE := fun _ _ => instDecidableOr

/-- Insertion into a lexicographically sorted list of rows. -/
def insertLex (p : Pt) : List Pt → List Pt
  | [] => [p]
  | q :: t => if lexLE p q then p :: q :: t else q :: insertLex p t

/-- Insertion sort by the lexicographic row order. -/
def sortLex : List Pt → List Pt
  | [] => []
  | p :: t => insertLex p (sortLex t)

/-- np.unique(coordinates, axis=0) (line 64): the distinct rows of the
matrix in sorted order. -/
def uniqueRows (l : List Pt) : List Pt := sortLex l.dedup

/-- The inner loop over the unique coordinate values (lines 64-84): the
matrix of ring coordinates is mutated in place, one first-occurrence row
per distinct original coordinate value. -/
def distortRing (cs : List Pt) (radius mass : List ℝ) (frf : ℝ)
    (coords : List Pt) : List Pt :=
  (uniqueRows coords).foldl (distortStep cs radius mass frf) coords

/-- Shapely Polygon ring closure: the constructor appends the first
coordinate when the sequence it is given is not closed. -/
def closeRing : List Pt → List Pt
  | [] => []
  | p :: t => if (p :: t).getLast? = some p then p :: t else (p :: t) ++ [p]

/-- Rebuild of one polygon (line 87): Polygon(coordinates, holes =
polygon.interiors) — the displaced exterior ring, closed by the
constructor, with the interior rings of the pre-iteration polygon. -/
def distortPolygon (cs : List Pt) (radius mass : List ℝ) (frf : ℝ)
    (p : SPolygon) : SPolygon :=
  ⟨closeRing (distortRing cs radius mass frf p.ring), p.holes⟩

/-- The per-iteration force-field data of lines 42-53: centroids, the
epsilon-guarded desired areas, radius and mass arrays, the
force_reduction_factor and the mean_size_error. -/
structure IterParams where
  centroids : List Pt
  desired : List ℝ
  radius : List ℝ
  mass : List ℝ
  frf : ℝ
  mse : ℝ

/-- Lines 42-53 of the source: one consistent snapshot of the geometry
metrics and force parameters, taken before any vertex moves. -/
def computeParams (vals : List ℝ) (totalValue eps : ℝ)
    (polys : List SPolygon) : IterParams :=
  let cs := polys.map centroid
  let areas := polys.map area
  let totalArea := areas.sum
  let desired0 := vals.map (fun v => totalArea * v / totalValue)
  let desired := desired0.map (fun d => if d = 0 then eps else d)
  let radius := areas.map (fun a => Real.sqrt (a / π))
  let mass := List.zipWith (fun d a => Real.sqrt (d / π) - Real.sqrt (a / π)) desired areas
  let sizeError := List.zipWith (fun d a => max d a - min d a) desired areas
  let mse := sizeError.sum / sizeError.length
  ⟨cs, desired, radius, mass, 1 / (1 + mse), mse⟩

/-- The row loop of lines 57-87: for each row, the working polygon array is
overwritten in place at that row with the rebuilt polygon. -/
def rowLoop (P : IterParams) (polys : List SPolygon) : List SPolygon :=
  (List.range polys.length).foldl
    (fun work row =>
      work.set row (distortPolygon P.centroids P.radius P.mass P.frf (work.getD row default)))
    polys

/-- The polygon array after one full loop body (lines 42-87). -/
def stepPolys (vals : List ℝ) (totalValue eps : ℝ) (polys : List SPolygon) :
    List SPolygon :=
  rowLoop (computeParams vals totalValue eps polys) polys

/-- The mean_size_error computed by one loop body (line 52) — the value the
verbose print of line 56 reports for the pass. -/
def stepErr (vals : List ℝ) (totalValue eps : ℝ) (polys : List SPolygon) : ℝ :=
  (computeParams vals totalValue eps polys).mse

/-- The convergence loop of lines 36-87 (for iteration in range(itermax)
with the break of lines 37-38 at the top of the body), with fuel equal to
the remaining iteration budget.  The second component counts the executed
loop bodies — exactly the number of displacement passes, observable in the
source as the number of lines the verbose mode prints. -/
def cartogramLoop (vals : List ℝ) (tv eps maxErr : ℝ) :
    ℕ → List SPolygon → ℝ → List SPolygon × ℕ
  | 0, polys, _ => (polys, 0)
  | n + 1, polys, mse =>
    if mse < maxErr then (polys, 0)
    else
      let res := cartogramLoop vals tv eps maxErr n
        (stepPolys vals tv eps polys) (stepErr vals tv eps polys)
      (res.1, res.2 + 1)

/-- The cartogram function of src/cartogram.py: total_value is summed once
(line 33), mean_size_error starts at the sentinel 100 (line 34), and the
loop runs for at most itermax iterations. -/
def cartogram (argPolys : List SPolygon) (argVals : List ℝ) (itermax : ℕ)
    (maxErr eps : ℝ) : List SPolygon :=
  let polys := argPolys
  let vals := argVals
  let totalValue := vals.sum
  (cartogramLoop vals totalValue eps maxErr itermax polys 100).1

/-- Number of displacement passes the invocation executes. -/
def cartogramRounds (argPolys : List SPolygon) (argVals : List ℝ) (itermax : ℕ)
    (maxErr eps : ℝ) : ℕ :=
  (cartogramLoop argVals argVals.sum eps maxErr itermax argPolys 100).2

/-- The caller-owned buffers of an invocation: the argument polygon series
and the argument value series (lines 30-31 read them; the algorithm then
works on the copy only). -/
structure Mem where
  argPolygons : List SPolygon
  argValues : List ℝ

/-- The invocation with the caller state threaded explicitly: line 30
copies the argument arrays, every later write (line 87) targets the
working copy, and the returned series is built from the working copy
(line 89), so the caller state passes through unchanged. -/
def cartogramMem (m : Mem) (itermax : ℕ) (maxErr eps : ℝ) :
    Mem × List SPolygon :=
  let polys := m.argPolygons
  let vals := m.argValues
  let totalValue := vals.sum
  (m, (cartogramLoop vals totalValue eps maxErr itermax polys 100).1)

/-! ### Definedness-tracking (IEEE) model of lines 73-84

In the source the arithmetic is numpy floating point: a division by zero
produces a non-finite value (inf or nan) and a nan contaminates every
later operation.  The model below tracks definedness: a division by zero
yields none, and none propagates, so a vertex whose displaced coordinate
is none is one whose coordinate the source turns non-finite. -/

/-- Addition, none-propagating. -/
def fadd : Option ℝ → Option ℝ → Option ℝ
  | some x, some y => some (x + y)
  | _, _ => none

/-- Subtraction, none-propagating. -/
def fsub : Option ℝ → Option ℝ → Option ℝ
  | some x, some y => some (x - y)
  | _, _ => none

/-- Multiplication, none-propagating. -/
def fmul : Option ℝ → Option ℝ → Option ℝ
  | some x, some y => some (x * y)
  | _, _ => none

/-- Division: a zero divisor makes the result undefined (IEEE: inf or
nan), and none propagates. -/
def fdiv : Option ℝ → Option ℝ → Option ℝ
  | some x, some y => if y = 0 then none else some (x / y)
  | _, _ => none

/-- Square root: a negative argument makes the result undefined (nan). -/
def fsqrt : Option ℝ → Option ℝ
  | some x => if x < 0 then none else some (Real.sqrt x)
  | none => none

/-- The comparison of line 79; a comparison against nan is false. -/
def fle : Option ℝ → Option ℝ → Prop
  | some x, some y => x ≤ y
  | _, _ => False

instance : ∀ a b, Decidable (fle a b) := fun a b => by
  unfold fle
  cases a <;> cases b <;> exact inferInstanceAs (Decidable _)

/-- Sum of a force array; any undefined entry poisons the sum. -/
def fsum : List (Option ℝ) → Option ℝ := List.foldr fadd (some 0)

/-- Far-field force of line 77 in the definedness model. -/
def FijF (m r d : Option ℝ) : Option ℝ := fdiv (fmul m r) d

/-- Near-field force of line 78 in the definedness model. -/
def FbijF (m r d : Option ℝ) : Option ℝ :=
  fmul (fmul m (fmul (fdiv d r) (fdiv d r))) (fsub (some 4) (fdiv (fmul (some 3) d) r))

/-- Branch selection and scaling of lines 79-80 in the definedness model. -/
def scaledForceF (frf m r d : Option ℝ) : Option ℝ :=
  fmul (if fle d r then FbijF m r d else FijF m r d) (fdiv frf d)

/-- Elementwise scaled force, definedness model. -/
def scaledForcesF (frf : Option ℝ) :
    List (Option ℝ) → List (Option ℝ) → List (Option ℝ) → List (Option ℝ)
  | m :: ms, r :: rs, d :: ds => scaledForceF frf m r d :: scaledForcesF frf ms rs ds
  | _, _, _ => []

/-- Squared-distance sum of line 73 (exact, it involves no division). -/
def distF (c v : Pt) : Option ℝ :=
  fsqrt (some ((c.1 - v.1) ^ 2 + (c.2 - v.2) ^ 2))

/-- Displacement of one vertex, lines 73-84, in the definedness model:
the displaced coordinate is none exactly when the source floating-point
computation turns it non-finite. -/
def displaceVertexF (cs : List Pt) (radius mass : List ℝ) (frf : ℝ) (v : Pt) :
    Option ℝ × Option ℝ :=
  let ds := cs.map (fun c => distF c v)
  let Fs := scaledForcesF (some frf) (mass.map some) (radius.map some) ds
  (fadd (some v.1) (fsum (List.zipWith (fun F c => fmul F (some (v.1 - c.1))) Fs cs)),
   fadd (some v.2) (fsum (List.zipWith (fun F c => fmul F (some (v.2 - c.2))) Fs cs)))

/-! ### Basic equations and structural lemmas -/

theorem cartogramLoop_zero (vals : List ℝ) (tv eps maxErr : ℝ)
    (polys : List SPolygon) (mse : ℝ) :
    cartogramLoop vals tv eps maxErr 0 polys mse = (polys, 0) := rfl

theorem cartogramLoop_succ (vals : List ℝ) (tv eps maxErr : ℝ) (n : ℕ)
    (polys : List SPolygon) (mse : ℝ) :
    cartogramLoop vals tv eps maxErr (n + 1) polys mse =
      if mse < maxErr then (polys, 0)
      else
        ((cartogramLoop vals tv eps maxErr n (stepPolys vals tv eps polys)
            (stepErr vals tv eps polys)).1,
         (cartogramLoop vals tv eps maxErr n (stepPolys vals tv eps polys)
            (stepErr vals tv eps polys)).2 + 1) := rfl

theorem cartogram_def (argPolys : List SPolygon) (argVals : List ℝ) (itermax : ℕ)
    (maxErr eps : ℝ) :
    cartogram argPolys argVals itermax maxErr eps =
      (cartogramLoop argVals argVals.sum eps maxErr itermax argPolys 100).1 := rfl

theorem setGetDSelf {α : Type _} : ∀ (l : List α) (i : ℕ) (d : α),
    l.set i (l.getD i d) = l
  | [], _, _ => rfl
  | _ :: _, 0, _ => rfl
  | a :: t, i + 1, d => congrArg (a :: ·) (setGetDSelf t i d)

theorem setAppendCons {α : Type _} : ∀ (l1 : List α) (a b : α) (l2 : List α),
    (l1 ++ a :: l2).set l1.length b = l1 ++ b :: l2
  | [], _, _, _ => rfl
  | x :: t, a, b, l2 => congrArg (x :: ·) (setAppendCons t a b l2)

theorem getDAppendCons {α : Type _} : ∀ (l1 : List α) (a : α) (l2 : List α) (d : α),
    (l1 ++ a :: l2).getD l1.length d = a
  | [], _, _, _ => rfl
  | x :: t, a, l2, d => by
    simpa using getDAppendCons t a l2 d

theorem rowLoopAux (f : SPolygon → SPolygon) :
    ∀ (l2 l1 : List SPolygon),
      (List.range' l1.length l2.length).foldl
        (fun w row => w.set row (f (w.getD row default))) (l1 ++ l2) =
        l1 ++ l2.map f
  | [], l1 => by simp
  | a :: t, l1 => by
    rw [List.length_cons, List.range'_succ, List.foldl_cons,
      getDAppendCons l1 a t default, setAppendCons l1 a (f a) t]
    have h1 : l1 ++ f a :: t = (l1 ++ [f a]) ++ t := by simp
    have h2 : l1.length + 1 = (l1 ++ [f a]).length := by simp
    rw [h1, h2, rowLoopAux f t (l1 ++ [f a])]
    simp

/-- The row loop of lines 57-87 is a positional map: the polygon written at
row i is the distortion of the polygon read at row i. -/
theorem rowLoop_eq_map (P : IterParams) (polys : List SPolygon) :
    rowLoop P polys = polys.map (distortPolygon P.centroids P.radius P.mass P.frf) := by
  have := rowLoopAux (distortPolygon P.centroids P.radius P.mass P.frf) polys []
  simpa [rowLoop, List.range_eq_range'] using this

theorem stepPolys_length (vals : List ℝ) (tv eps : ℝ) (polys : List SPolygon) :
    (stepPolys vals tv eps polys).length = polys.length := by
  rw [stepPolys, rowLoop_eq_map, List.length_map]

theorem cartogramLoop_length (vals : List ℝ) (tv eps maxErr : ℝ) :
    ∀ (fuel : ℕ) (polys : List SPolygon) (mse : ℝ),
      ((cartogramLoop vals tv eps maxErr fuel polys mse).1).length = polys.length := by
  intro fuel
  induction fuel with
  | zero => intro polys mse; rfl
  | succ n ih =>
    intro polys mse
    rw [cartogramLoop_succ]
    split
    · rfl
    · rw [ih, stepPolys_length]

/-- The invocation returns one output polygon per input polygon. -/
theorem cartogram_length (polys : List SPolygon) (vals : List ℝ) (n : ℕ)
    (maxErr eps : ℝ) :
    (cartogram polys vals n maxErr eps).length = polys.length := by
  rw [cartogram_def, cartogramLoop_length]

theorem stepPolys_holes (vals : List ℝ) (tv eps : ℝ) (polys : List SPolygon)
    (i : ℕ) :
    ((stepPolys vals tv eps polys)[i]?).map SPolygon.holes =
      (polys[i]?).map SPolygon.holes := by
  rw [stepPolys, rowLoop_eq_map, List.getElem?_map]
  rcases h : polys[i]? with _ | p <;> simp [distortPolygon]

theorem cartogramLoop_holes (vals : List ℝ) (tv eps maxErr : ℝ) :
    ∀ (fuel : ℕ) (polys : List SPolygon) (mse : ℝ) (i : ℕ),
      (((cartogramLoop vals tv eps maxErr fuel polys mse).1)[i]?).map SPolygon.holes
        = (polys[i]?).map SPolygon.holes := by
  intro fuel
  induction fuel with
  | zero => intro polys mse i; rfl
  | succ n ih =>
    intro polys mse i
    rw [cartogramLoop_succ]
    split
    · rfl
    · rw [ih, stepPolys_holes]

/-! ### Zero-mass displacement is the identity -/

theorem scaledForce_zero (frf r d : ℝ) : scaledForce frf 0 r d = 0 := by
  unfold scaledForce Fij Fbij
  split <;> ring

theorem scaledForces_all_zero (frf : ℝ) :
    ∀ (ms rs ds : List ℝ), (∀ m ∈ ms, m = 0) →
      ∀ F ∈ scaledForces frf ms rs ds, F = 0 := by
  intro ms
  induction ms with
  | nil => intro rs ds _ F hF; cases rs <;> cases ds <;> simp [scaledForces] at hF
  | cons m ms ih =>
    intro rs ds h F hF
    cases rs with
    | nil => simp [scaledForces] at hF
    | cons r rs =>
      cases ds with
      | nil => simp [scaledForces] at hF
      | cons d ds =>
        rw [scaledForces] at hF
        rcases List.mem_cons.1 hF with rfl | hF
        · have hm : m = 0 := h m (List.mem_cons_self m ms)
          rw [hm, scaledForce_zero]
        · exact ih rs ds (fun x hx => h x (List.mem_cons_of_mem m hx)) F hF

theorem zipWith_sum_zero (g : ℝ → Pt → ℝ) (hg : ∀ c, g 0 c = 0) :
    ∀ (Fs : List ℝ) (cs : List Pt), (∀ F ∈ Fs, F = 0) →
      (List.zipWith g Fs cs).sum = 0 := by
  intro Fs
  induction Fs with
  | nil => intro cs _; simp
  | cons F Fs ih =>
    intro cs h
    cases cs with
    | nil => simp
    | cons c cs =>
      have hF : F = 0 := h F (List.mem_cons_self F Fs)
      rw [List.zipWith_cons_cons, List.sum_cons, hF, hg,
        ih cs (fun x hx => h x (List.mem_cons_of_mem F hx)), add_zero]

theorem displaceVertex_zero (cs : List Pt) (radius mass : List ℝ) (frf : ℝ)
    (v : Pt) (h : ∀ m ∈ mass, m = 0) :
    displaceVertex cs radius mass frf v = v := by
  unfold displaceVertex
  dsimp only
  have hF := scaledForces_all_zero frf mass radius (cs.map (fun c => dist c v)) h
  rw [zipWith_sum_zero _ (fun c => by ring) _ _ hF,
    zipWith_sum_zero _ (fun c => by ring) _ _ hF]
  simp

theorem distortStep_zero (cs : List Pt) (radius mass : List ℝ) (frf : ℝ)
    (coords : List Pt) (u : Pt) (h : ∀ m ∈ mass, m = 0) :
    distortStep cs radius mass frf coords u = coords := by
  unfold distortStep
  rcases hf : findFirst u coords with _ | i
  · rfl
  · dsimp only
    rw [displaceVertex_zero _ _ _ _ _ h, setGetDSelf]

theorem distortRing_zero (cs : List Pt) (radius mass : List ℝ) (frf : ℝ)
    (coords : List Pt) (h : ∀ m ∈ mass, m = 0) :
    distortRing cs radius mass frf coords = coords := by
  unfold distortRing
  generalize uniqueRows coords = us
  induction us generalizing coords with
  | nil => rfl
  | cons u us ih => rw [List.foldl_cons, distortStep_zero _ _ _ _ _ _ h]; exact ih coords

theorem distortPolygon_id (cs : List Pt) (radius mass : List ℝ) (frf : ℝ)
    (p : SPolygon) (h : ∀ m ∈ mass, m = 0) (hr : closeRing p.ring = p.ring) :
    distortPolygon cs radius mass frf p = p := by
  unfold distortPolygon
  rw [distortRing_zero _ _ _ _ _ h, hr, SPolygon.eta]

theorem stepPolys_id (vals : List ℝ) (tv eps : ℝ) (polys : List SPolygon)
    (hmass : ∀ m ∈ (computeParams vals tv eps polys).mass, m = 0)
    (hr : ∀ p ∈ polys, closeRing p.ring = p.ring) :
    stepPolys vals tv eps polys = polys := by
  rw [stepPolys, rowLoop_eq_map,
    List.map_congr_left
      (fun p hp => distortPolygon_id _ _ _ _ p hmass (hr p hp))]
  simp

/-! ### Control-flow of the convergence loop -/

theorem rounds_zero_of_large (polys : List SPolygon) (vals : List ℝ) (n : ℕ)
    (maxErr eps : ℝ) (h : 100 < maxErr) :
    cartogramRounds polys vals n maxErr eps = 0 := by
  cases n with
  | zero => rfl
  | succ k =>
    rw [cartogramRounds, cartogramLoop_succ, if_pos h]

theorem loop_tail_rounds (polys : List SPolygon) (vals : List ℝ) (k : ℕ)
    (maxErr eps : ℝ)
    (hs : stepErr vals vals.sum eps polys < maxErr) :
    (cartogramLoop vals vals.sum eps maxErr k (stepPolys vals vals.sum eps polys)
      (stepErr vals vals.sum eps polys)).2 = 0 := by
  cases k with
  | zero => rfl
  | succ j => rw [cartogramLoop_succ, if_pos hs]

theorem loop_tail_polys (polys : List SPolygon) (vals : List ℝ) (k : ℕ)
    (maxErr eps : ℝ)
    (hs : stepErr vals vals.sum eps polys < maxErr) :
    (cartogramLoop vals vals.sum eps maxErr k (stepPolys vals vals.sum eps polys)
      (stepErr vals vals.sum eps polys)).1 = stepPolys vals vals.sum eps polys := by
  cases k with
  | zero => rfl
  | succ j => rw [cartogramLoop_succ, if_pos hs]

theorem rounds_one (polys : List SPolygon) (vals : List ℝ) (n : ℕ)
    (maxErr eps : ℝ) (hm : maxErr ≤ 100) (hn : 1 ≤ n)
    (hs : stepErr vals vals.sum eps polys < maxErr) :
    cartogramRounds polys vals n maxErr eps = 1 := by
  obtain ⟨k, rfl⟩ : ∃ k, n = k + 1 := ⟨n - 1, (Nat.succ_pred_eq_of_pos hn).symm⟩
  rw [cartogramRounds, cartogramLoop_succ, if_neg (not_lt.2 hm)]
  rw [show ∀ q : List SPolygon × ℕ, (q.1, q.2 + 1).2 = q.2 + 1 from fun q => rfl,
    loop_tail_rounds polys vals k maxErr eps hs]

theorem cartogram_eq_step (polys : List SPolygon) (vals : List ℝ) (n : ℕ)
    (maxErr eps : ℝ) (hm : maxErr ≤ 100) (hn : 1 ≤ n)
    (hs : stepErr vals vals.sum eps polys < maxErr) :
    cartogram polys vals n maxErr eps = stepPolys vals vals.sum eps polys := by
  obtain ⟨k, rfl⟩ : ∃ k, n = k + 1 := ⟨n - 1, (Nat.succ_pred_eq_of_pos hn).symm⟩
  rw [cartogram_def, cartogramLoop_succ, if_neg (not_lt.2 hm)]
  exact loop_tail_polys polys vals k maxErr eps hs

theorem rounds_pos (polys : List SPolygon) (vals : List ℝ) (n : ℕ)
    (maxErr eps : ℝ) (hm : maxErr ≤ 100) (hn : 1 ≤ n) :
    1 ≤ cartogramRounds polys vals n maxErr eps := by
  obtain ⟨k, rfl⟩ : ∃ k, n = k + 1 := ⟨n - 1, (Nat.succ_pred_eq_of_pos hn).symm⟩
  rw [cartogramRounds, cartogramLoop_succ, if_neg (not_lt.2 hm)]
  exact Nat.le_add_left 1 _

theorem loop_fixed (vals : List ℝ) (tv eps maxErr : ℝ) (polys : List SPolygon)
    (hstep : stepPolys vals tv eps polys = polys) :
    ∀ (fuel : ℕ) (mse : ℝ),
      (cartogramLoop vals tv eps maxErr fuel polys mse).1 = polys := by
  intro fuel
  induction fuel with
  | zero => intro mse; rfl
  | succ n ih =>
    intro mse
    rw [cartogramLoop_succ]
    split
    · rfl
    · rw [hstep]; exact ih _

/-! ### Force parameters for balanced inputs -/

theorem zipWith_same_mem (f : ℝ → ℝ → ℝ) (hf : ∀ a, f a a = 0) :
    ∀ (l : List ℝ), ∀ x ∈ List.zipWith f l l, x = 0 := by
  intro l
  induction l with
  | nil => simp
  | cons a t ih =>
    intro x hx
    rw [List.zipWith_cons_cons] at hx
    rcases List.mem_cons.1 hx with rfl | hx
    · exact hf a
    · exact ih x hx

/-- With a single polygon the desired area is the (epsilon-guarded) total
area, the mass is zero and the mean size error is zero — provided the
polygon's area is nonzero, so the epsilon replacement of line 47 does not
fire. -/
theorem computeParams_single (p : SPolygon) (w eps : ℝ) (hw : w ≠ 0)
    (ha : area p ≠ 0) :
    (computeParams [w] w eps [p]).desired = [area p] ∧
    (computeParams [w] w eps [p]).mass = [0] ∧
    (computeParams [w] w eps [p]).mse = 0 := by
  unfold computeParams
  dsimp only
  simp only [List.map_cons, List.map_nil, List.sum_cons, List.sum_nil, add_zero]
  rw [mul_div_cancel_right₀ _ hw, if_neg ha]
  refine ⟨rfl, ?_, ?_⟩
  · simp [sub_self]
  · simp [max_self, min_self]

/-- With weights exactly proportional to the areas every mass is zero and
the freshly computed mean size error of the pass is zero. -/
theorem computeParams_proportional (polys : List SPolygon) (c eps : ℝ)
    (hc : c ≠ 0) (hA : ∀ p ∈ polys, 0 < area p) :
    (∀ m ∈ (computeParams (polys.map fun p => c * area p)
        ((polys.map fun p => c * area p).sum) eps polys).mass, m = 0) ∧
    (computeParams (polys.map fun p => c * area p)
        ((polys.map fun p => c * area p).sum) eps polys).mse = 0 := by
  have htv : (polys.map fun p => c * area p).sum = c * (polys.map area).sum :=
    List.sum_map_mul_left polys area c
  have hdes :
      ((polys.map fun p => c * area p).map
        (fun v => (polys.map area).sum * v /
          ((polys.map fun p => c * area p).sum))).map
        (fun d => if d = 0 then eps else d) = polys.map area := by
    rw [htv, List.map_map, List.map_map]
    refine List.map_congr_left (fun p hp => ?_)
    have hpos : 0 < area p := hA p hp
    have hne : polys.map area ≠ [] := by
      rcases polys with _ | ⟨q, t⟩
      · simp at hp
      · simp
    have hsum : 0 < (polys.map area).sum := by
      refine List.sum_pos _ (fun a ha => ?_) hne
      rcases List.mem_map.1 ha with ⟨q, hq, rfl⟩
      exact hA q hq
    show (if (polys.map area).sum * (c * area p) / (c * (polys.map area).sum) = 0
        then eps
        else (polys.map area).sum * (c * area p) / (c * (polys.map area).sum)) = area p
    have he : (polys.map area).sum * (c * area p) / (c * (polys.map area).sum)
        = area p := by
      rw [div_eq_iff (mul_ne_zero hc hsum.ne')]
      ring
    rw [he, if_neg hpos.ne']
  unfold computeParams
  dsimp only
  rw [hdes]
  constructor
  · exact zipWith_same_mem (fun d a => Real.sqrt (d / π) - Real.sqrt (a / π))
      (fun a => sub_self _) _
  · rw [List.sum_eq_zero
      (zipWith_same_mem (fun d a => max d a - min d a) (fun a => by simp) _),
      zero_div]

/-! ### Concrete inputs -/

/-- Unit right triangle at the origin, closed ring, no holes. -/
def T1 : SPolygon := ⟨[((0:ℝ), (0:ℝ)), (1, 0), (0, 1), (0, 0)], []⟩

/-- Unit right triangle two units to the right, closed ring, no holes. -/
def T2 : SPolygon := ⟨[((2:ℝ), (0:ℝ)), (3, 0), (2, 1), (2, 0)], []⟩

/-- A degenerate (collinear, zero-area) ring of three distinct points. -/
def polyD : SPolygon := ⟨[((0:ℝ), (0:ℝ)), (1, 1), (2, 2), (0, 0)], []⟩

theorem area_T1 : area T1 = 1 / 2 := by
  norm_num [area, T1, ringArea, shoelace]

theorem area_T2 : area T2 = 1 / 2 := by
  norm_num [area, T2, ringArea, shoelace]

theorem area_polyD : area polyD = 0 := by
  norm_num [area, polyD, ringArea, shoelace]

theorem closeRing_T1 : closeRing T1.ring = T1.ring := by
  norm_num [closeRing, T1, List.getLast?_cons_cons]

theorem closeRing_T2 : closeRing T2.ring = T2.ring := by
  norm_num [closeRing, T2, List.getLast?_cons_cons]

/-- The first freshly computed mean size error for the two equal triangles
with equal weights is zero. -/
theorem stepErr_T12 : stepErr [1, 1] 2 (1 / 100) [T1, T2] = 0 := by
  norm_num [stepErr, computeParams, area_T1, area_T2, max_self, min_self]

/-- The same, with both weights equal to 3 (total value 6). -/
theorem stepErr_T12w3 : stepErr [3, 3] 6 (1 / 100) [T1, T2] = 0 := by
  norm_num [stepErr, computeParams, area_T1, area_T2, max_self, min_self]

theorem sqrt_twentyfive : Real.sqrt 25 = 5 := by
  rw [show (25 : ℝ) = 5 ^ 2 by norm_num, Real.sqrt_sq (by norm_num : (0:ℝ) ≤ 5)]

/-! ### Claim theorems -/

/-- C2, counterexample.  Left part: for the two equal triangles with equal
weights the freshly computed mean size error of the first pass is 0, below
the default threshold 1.0001, yet one displacement pass executes — the
fresh error is not checked before the displacement of its own iteration.
Right part: with max_size_error = 200 the sentinel check 100 < 200 stops
the loop at once, so the first iteration does not run. -/
theorem C2_cex :
    (cartogramRounds [T1, T2] [3, 3] 5 (10001 / 10000) (1 / 100) = 1 ∧
      stepErr [3, 3] 6 (1 / 100) [T1, T2] = 0) ∧
    cartogramRounds [T1] [1] 5 200 (1 / 100) = 0 := by
  refine ⟨⟨?_, stepErr_T12w3⟩, rounds_zero_of_large _ _ _ _ _ (by norm_num)⟩
  apply rounds_one _ _ _ _ _ (by norm_num) (by norm_num)
  have hsum : ([3, 3] : List ℝ).sum = 6 := by
    norm_num [List.sum_cons, List.sum_nil]
  rw [hsum, stepErr_T12w3]
  norm_num

/-- C2, amended: in every pass the error compared against max_size_error is
the one carried over from the previous pass (initially the sentinel 100),
so when the sentinel passes the check at least one displacement pass runs;
a pass whose freshly computed error is already below the threshold still
runs its own displacement, and the loop only stops at the next check; the
sentinel guarantees the first iteration exactly when max_size_error is at
most 100. -/
theorem C2_stale_check (polys : List SPolygon) (vals : List ℝ) (n : ℕ)
    (maxErr eps : ℝ) (hn : 1 ≤ n) (hm : maxErr ≤ 100) :
    1 ≤ cartogramRounds polys vals n maxErr eps ∧
    (stepErr vals vals.sum eps polys < maxErr →
      cartogram polys vals n maxErr eps = stepPolys vals vals.sum eps polys) ∧
    ∀ m2, 100 < m2 → cartogramRounds polys vals n m2 eps = 0 :=
  ⟨rounds_pos polys vals n maxErr eps hm hn,
   fun hs => cartogram_eq_step polys vals n maxErr eps hm hn hs,
   fun m2 h2 => rounds_zero_of_large polys vals n m2 eps h2⟩

/-- C2, witness for the amended theorem at a concrete input. -/
theorem C2_stale_check_w :
    1 ≤ 5 ∧ (10001 / 10000 : ℝ) ≤ 100 ∧
    (1 ≤ cartogramRounds [T1] [1] 5 (10001 / 10000) (1 / 100) ∧
     (stepErr [1] ([1] : List ℝ).sum (1 / 100) [T1] < 10001 / 10000 →
       cartogram [T1] [1] 5 (10001 / 10000) (1 / 100) =
         stepPolys [1] ([1] : List ℝ).sum (1 / 100) [T1]) ∧
     ∀ m2, 100 < m2 → cartogramRounds [T1] [1] 5 m2 (1 / 100) = 0) :=
  ⟨by norm_num, by norm_num,
   C2_stale_check [T1] [1] 5 (10001 / 10000) (1 / 100) (by norm_num) (by norm_num)⟩

/-- C3, counterexample: a length-matched input containing a negative weight
(and a positive total) is not rejected — the invocation produces a full
output of 2 polygons instead of failing with a structural error. -/
theorem C3_cex :
    ((-1 : ℝ) < 0) ∧ (0 : ℝ) < ([3, -1] : List ℝ).sum ∧
    (cartogram [T1, T2] [3, -1] 5 (10001 / 10000) (1 / 100)).length = 2 := by
  refine ⟨by norm_num, by norm_num [List.sum_cons, List.sum_nil], ?_⟩
  rw [cartogram_length]
  rfl

/-- C3, amended: the function performs no structural validation; even when
some weight is negative or the total weight is non-positive, the invocation
runs and returns exactly one output polygon per input polygon. -/
theorem C3_no_validation (polys : List SPolygon) (vals : List ℝ) (n : ℕ)
    (maxErr eps : ℝ) (_hlen : vals.length = polys.length)
    (_hbad : (∃ v ∈ vals, v < 0) ∨ vals.sum ≤ 0) :
    (cartogram polys vals n maxErr eps).length = polys.length :=
  cartogram_length polys vals n maxErr eps

/-- C3, witness for the amended theorem at a concrete input. -/
theorem C3_no_validation_w :
    ([3, -1] : List ℝ).length = ([T1, T2] : List SPolygon).length ∧
    (∃ v ∈ ([3, -1] : List ℝ), v < 0) ∧
    (cartogram [T1, T2] [3, -1] 5 (10001 / 10000) (1 / 100)).length =
      ([T1, T2] : List SPolygon).length :=
  ⟨rfl, ⟨-1, by simp, by norm_num⟩,
   C3_no_validation [T1, T2] [3, -1] 5 (10001 / 10000) (1 / 100) rfl
     (Or.inl ⟨-1, by simp, by norm_num⟩)⟩

/-- C5, counterexample: for the two equal triangles with equal weights the
freshly computed mean size error is 0, yet the number of executed
displacement rounds is 1, not 0 — and the error compared at the first
check was the sentinel, not 0. -/
theorem C5_cex :
    cartogramRounds [T1, T2] [1, 1] 5 (10001 / 10000) (1 / 100) = 1 ∧
    stepErr [1, 1] 2 (1 / 100) [T1, T2] = 0 := by
  refine ⟨?_, stepErr_T12⟩
  apply rounds_one _ _ _ _ _ (by norm_num) (by norm_num)
  have hsum : ([1, 1] : List ℝ).sum = 2 := by
    norm_num [List.sum_cons, List.sum_nil]
  rw [hsum, stepErr_T12]
  norm_num

/-- C5, amended: when every weight is exactly proportional to its polygon's
(positive) area, the first freshly computed mean size error is 0, exactly
one displacement round executes (with all masses zero it moves nothing),
the loop stops at the following check, and the output equals the input. -/
theorem C5_proportional (polys : List SPolygon) (c : ℝ) (itermax : ℕ)
    (maxErr eps : ℝ) (hc : c ≠ 0) (hA : ∀ p ∈ polys, 0 < area p)
    (hR : ∀ p ∈ polys, closeRing p.ring = p.ring) (h1 : 1 ≤ itermax)
    (hm0 : 0 < maxErr) (hm : maxErr ≤ 100) :
    stepErr (polys.map fun p => c * area p)
      ((polys.map fun p => c * area p).sum) eps polys = 0 ∧
    cartogramRounds polys (polys.map fun p => c * area p) itermax maxErr eps = 1 ∧
    cartogram polys (polys.map fun p => c * area p) itermax maxErr eps = polys := by
  obtain ⟨hmass, hmse⟩ := computeParams_proportional polys c eps hc hA
  have hse : stepErr (polys.map fun p => c * area p)
      ((polys.map fun p => c * area p).sum) eps polys = 0 := hmse
  refine ⟨hse, rounds_one _ _ _ _ _ hm h1 (by rw [hse]; exact hm0), ?_⟩
  rw [cartogram_eq_step _ _ _ _ _ hm h1 (by rw [hse]; exact hm0)]
  exact stepPolys_id _ _ _ _ hmass hR

/-- C5, witness for the amended theorem at a concrete input. -/
theorem C5_proportional_w :
    (0 : ℝ) < area T1 ∧
    cartogram [T1, T2] ([T1, T2].map fun p => 2 * area p) 5
      (10001 / 10000) (1 / 100) = [T1, T2] :=
  ⟨by rw [area_T1]; norm_num,
   (C5_proportional [T1, T2] 2 5 (10001 / 10000) (1 / 100) (by norm_num)
     (by
       intro p hp
       rcases List.mem_cons.1 hp with rfl | hp
       · rw [area_T1]; norm_num
       · rcases List.mem_cons.1 hp with rfl | hp
         · rw [area_T2]; norm_num
         · simp at hp)
     (by
       intro p hp
       rcases List.mem_cons.1 hp with rfl | hp
       · exact closeRing_T1
       · rcases List.mem_cons.1 hp with rfl | hp
         · exact closeRing_T2
         · simp at hp)
     (by norm_num) (by norm_num) (by norm_num)).2.2⟩

/-- C6, counterexample: a single degenerate polygon of zero area with
weight 1 — the epsilon replacement of line 47 fires, so the desired area is
0.01 while the total area is 0, and the mass is strictly positive: the
claim's "desired equals total area, hence mass 0, in every iteration" fails
at the first iteration already. -/
theorem C6_cex :
    area polyD = 0 ∧
    (computeParams [1] 1 (1 / 100) [polyD]).desired = [1 / 100] ∧
    (computeParams [1] 1 (1 / 100) [polyD]).mass ≠ [0] := by
  refine ⟨area_polyD, ?_, ?_⟩
  · unfold computeParams
    dsimp only
    norm_num [area_polyD]
  · unfold computeParams
    dsimp only
    simp only [List.map_cons, List.map_nil, List.sum_cons, List.sum_nil,
      add_zero, area_polyD]
    norm_num [Real.sqrt_ne_zero']
    exact Real.pi_pos

/-- C6, amended: for a single-polygon input with nonzero area (so the
epsilon replacement does not fire) and nonzero weight, the desired area
equals the polygon's area (the total area), the mass is zero, and the
output equals the input for every itermax, threshold and epsilon. -/
theorem C6_single (p : SPolygon) (w : ℝ) (itermax : ℕ) (maxErr eps : ℝ)
    (hw : 0 < w) (ha : area p ≠ 0) (hr : closeRing p.ring = p.ring) :
    (computeParams [w] w eps [p]).desired = [area p] ∧
    (computeParams [w] w eps [p]).mass = [0] ∧
    cartogram [p] [w] itermax maxErr eps = [p] := by
  obtain ⟨hd, hms, -⟩ := computeParams_single p w eps hw.ne' ha
  refine ⟨hd, hms, ?_⟩
  rw [cartogram_def, show ([w] : List ℝ).sum = w by simp]
  refine loop_fixed _ _ _ _ _ ?_ itermax 100
  refine stepPolys_id _ _ _ _ ?_ ?_
  · rw [hms]
    intro m hmem
    simpa using hmem
  · intro q hq
    rw [List.mem_singleton.1 hq]
    exact hr

/-- C6, witness for the amended theorem at a concrete input. -/
theorem C6_single_w :
    (0 : ℝ) < 2 ∧ area T1 ≠ 0 ∧
    cartogram [T1] [2] 3 (10001 / 10000) (1 / 100) = [T1] :=
  ⟨by norm_num, by rw [area_T1]; norm_num,
   (C6_single T1 2 3 (10001 / 10000) (1 / 100) (by norm_num)
     (by rw [area_T1]; norm_num) closeRing_T1).2.2⟩

/-- C7: at distance equal to the radius the far-field formula of line 77
and the near-field formula of line 78 both evaluate to the mass, for every
mass and every positive radius — the piecewise force field is continuous
at the branch boundary of line 79. -/
theorem C7_continuity (m r : ℝ) (hr : 0 < r) : Fij m r r = m ∧ Fbij m r r = m := by
  constructor
  · rw [Fij, mul_div_assoc, div_self hr.ne', mul_one]
  · rw [Fbij]
    field_simp
    ring

/-- C7, witness at mass 2 and radius 3. -/
theorem C7_continuity_w : (0 : ℝ) < 3 ∧ Fij 2 3 3 = 2 ∧ Fbij 2 3 3 = 2 :=
  ⟨by norm_num, C7_continuity 2 3 (by norm_num)⟩

/-- The force-parameter snapshots of the displacement passes the
invocation executes, in execution order: one entry (lines 42-53) per
executed loop body. -/
def paramTrace (vals : List ℝ) (tv eps maxErr : ℝ) :
    ℕ → List SPolygon → ℝ → List IterParams
  | 0, _, _ => []
  | n + 1, polys, mse =>
    if mse < maxErr then []
    else
      computeParams vals tv eps polys ::
        paramTrace vals tv eps maxErr n (stepPolys vals tv eps polys)
          (stepErr vals tv eps polys)

theorem paramTrace_zero (vals : List ℝ) (tv eps maxErr : ℝ)
    (polys : List SPolygon) (mse : ℝ) :
    paramTrace vals tv eps maxErr 0 polys mse = [] := rfl

theorem paramTrace_succ (vals : List ℝ) (tv eps maxErr : ℝ) (n : ℕ)
    (polys : List SPolygon) (mse : ℝ) :
    paramTrace vals tv eps maxErr (n + 1) polys mse =
      if mse < maxErr then []
      else
        computeParams vals tv eps polys ::
          paramTrace vals tv eps maxErr n (stepPolys vals tv eps polys)
            (stepErr vals tv eps polys) := rfl

/-- The whole convergence loop acts positionally: the polygon at output
position i is the polygon at input position i with the executed passes'
distortions applied to it, in order, using each pass's globally computed
parameter snapshot. -/
theorem cartogramLoop_getElem (vals : List ℝ) (tv eps maxErr : ℝ) :
    ∀ (fuel : ℕ) (polys : List SPolygon) (mse : ℝ) (i : ℕ),
      (cartogramLoop vals tv eps maxErr fuel polys mse).1[i]? =
        (polys[i]?).map (fun p =>
          (paramTrace vals tv eps maxErr fuel polys mse).foldl
            (fun q P => distortPolygon P.centroids P.radius P.mass P.frf q) p) := by
  intro fuel
  induction fuel with
  | zero =>
    intro polys mse i
    rw [cartogramLoop_zero, paramTrace_zero]
    cases polys[i]? <;> rfl
  | succ n ih =>
    intro polys mse i
    rw [cartogramLoop_succ, paramTrace_succ]
    by_cases hb : mse < maxErr
    · rw [if_pos hb, if_pos hb]
      cases polys[i]? <;> rfl
    · rw [if_neg hb, if_neg hb]
      have hL : (cartogramLoop vals tv eps maxErr n (stepPolys vals tv eps polys)
            (stepErr vals tv eps polys)).1[i]? =
          ((stepPolys vals tv eps polys)[i]?).map (fun p =>
            (paramTrace vals tv eps maxErr n (stepPolys vals tv eps polys)
              (stepErr vals tv eps polys)).foldl
              (fun q P => distortPolygon P.centroids P.radius P.mass P.frf q) p) :=
        ih (stepPolys vals tv eps polys) (stepErr vals tv eps polys) i
      rw [show ((cartogramLoop vals tv eps maxErr n (stepPolys vals tv eps polys)
            (stepErr vals tv eps polys)).1,
          (cartogramLoop vals tv eps maxErr n (stepPolys vals tv eps polys)
            (stepErr vals tv eps polys)).2 + 1).1 =
          (cartogramLoop vals tv eps maxErr n (stepPolys vals tv eps polys)
            (stepErr vals tv eps polys)).1 from rfl, hL]
      rw [stepPolys, rowLoop_eq_map, List.getElem?_map, Option.map_map]
      cases polys[i]? with
      | none => rfl
      | some p =>
        rw [Option.map_some', Option.map_some', Option.some.injEq]
        rw [List.foldl_cons]
        rfl

/-- C8: for every input the output is exactly one polygon per input
polygon, in the same order: the polygon at output position i is the input
polygon at position i with the executed passes' distortions (each built
from that pass's globally computed parameter snapshot) applied to it. -/
theorem C8_order_count (polys : List SPolygon) (vals : List ℝ) (n : ℕ)
    (maxErr eps : ℝ) :
    (cartogram polys vals n maxErr eps).length = polys.length ∧
    ∀ i : ℕ, (cartogram polys vals n maxErr eps)[i]? =
      (polys[i]?).map (fun p =>
        (paramTrace vals vals.sum eps maxErr n polys 100).foldl
          (fun q P => distortPolygon P.centroids P.radius P.mass P.frf q) p) := by
  refine ⟨cartogram_length polys vals n maxErr eps, fun i => ?_⟩
  rw [cartogram_def]
  exact cartogramLoop_getElem vals vals.sum eps maxErr n polys 100 i

/-- C9: at every position the output polygon's interior rings equal the
input polygon's interior rings, for any number of iterations — line 87
copies polygon.interiors unchanged into every rebuilt polygon. -/
theorem C9_holes (polys : List SPolygon) (vals : List ℝ) (n : ℕ)
    (maxErr eps : ℝ) (i : ℕ) :
    ((cartogram polys vals n maxErr eps)[i]?).map SPolygon.holes =
      (polys[i]?).map SPolygon.holes := by
  rw [cartogram_def]
  exact cartogramLoop_holes vals vals.sum eps maxErr n polys 100 i

/-- C10: the caller-owned argument buffers pass through the invocation
unchanged — line 30 copies them and every write of line 87 targets the
working copy — and the returned series is the one built from the working
copy, not either argument buffer. -/
theorem C10_caller_unchanged (m : Mem) (itermax : ℕ) (maxErr eps : ℝ) :
    (cartogramMem m itermax maxErr eps).1 = m ∧
    (cartogramMem m itermax maxErr eps).2 =
      cartogram m.argPolygons m.argValues itermax maxErr eps :=
  ⟨rfl, rfl⟩

/-- C4: a vertex lying exactly on a centroid (distance 0).  The near-field
branch is selected (0 <= radius) and evaluates to force 0, but the scaling
of line 80 multiplies it by force_reduction_factor / distance with distance
0 — in IEEE arithmetic 0 * inf = nan — so the displaced coordinate is
undefined, not the finite value the remaining contributions would give. -/
theorem C4_nan :
    displaceVertexF [((0:ℝ), 0)] [1] [1] 1 ((0:ℝ), 0) = (none, none) := by
  norm_num [displaceVertexF, distF, fsqrt, scaledForcesF, scaledForceF, fle,
    FbijF, FijF, fdiv, fmul, fsub, fadd, fsum]

/-- A closed ring whose first and last position hold the same coordinate
(3, 4), with every vertex at distance 5 from the origin. -/
def ringC : List Pt := [((3:ℝ), (4:ℝ)), (-3, 4), (0, -5), (3, 4)]

theorem dedup_ringC : ringC.dedup = [((-3:ℝ), (4:ℝ)), (0, -5), (3, 4)] := by
  show ([((3:ℝ), (4:ℝ)), (-3, 4), (0, -5), (3, 4)] : List Pt).dedup = _
  norm_num [List.dedup_cons_of_mem, List.dedup_cons_of_not_mem, List.dedup_nil,
    List.mem_cons, List.not_mem_nil, Prod.mk.injEq]

theorem uniqueRows_ringC :
    uniqueRows ringC = [((-3:ℝ), (4:ℝ)), (0, -5), (3, 4)] := by
  rw [uniqueRows, dedup_ringC]
  norm_num [sortLex, insertLex, lexLE]

theorem displace_v1 :
    displaceVertex [((0:ℝ), 0)] [1] [25] 1 ((-3:ℝ), 4) = ((-6:ℝ), 8) := by
  norm_num [displaceVertex, dist, scaledForces, scaledForce, Fij, Fbij,
    sqrt_twentyfive, Prod.mk.injEq]

theorem displace_v2 :
    displaceVertex [((0:ℝ), 0)] [1] [25] 1 ((0:ℝ), -5) = ((0:ℝ), -10) := by
  norm_num [displaceVertex, dist, scaledForces, scaledForce, Fij, Fbij,
    sqrt_twentyfive, Prod.mk.injEq]

theorem displace_v3 :
    displaceVertex [((0:ℝ), 0)] [1] [25] 1 ((3:ℝ), 4) = ((6:ℝ), 8) := by
  norm_num [displaceVertex, dist, scaledForces, scaledForce, Fij, Fbij,
    sqrt_twentyfive, Prod.mk.injEq]

theorem findFirst_s1 :
    findFirst ((-3:ℝ), 4) [((3:ℝ), (4:ℝ)), (-3, 4), (0, -5), (3, 4)] = some 1 := by
  norm_num [findFirst, Prod.mk.injEq]

theorem findFirst_s2 :
    findFirst ((0:ℝ), -5) [((3:ℝ), (4:ℝ)), (-6, 8), (0, -5), (3, 4)] = some 2 := by
  norm_num [findFirst, Prod.mk.injEq]

theorem findFirst_s3 :
    findFirst ((3:ℝ), 4) [((3:ℝ), (4:ℝ)), (-6, 8), (0, -10), (3, 4)] = some 0 := by
  norm_num [findFirst, Prod.mk.injEq]

theorem distortStep_s1 :
    distortStep [((0:ℝ), 0)] [1] [25] 1 ringC ((-3:ℝ), 4) =
      [((3:ℝ), (4:ℝ)), (-6, 8), (0, -5), (3, 4)] := by
  unfold distortStep
  rw [show ringC = [((3:ℝ), (4:ℝ)), (-3, 4), (0, -5), (3, 4)] from rfl, findFirst_s1]
  dsimp only
  rw [show ([((3:ℝ), (4:ℝ)), (-3, 4), (0, -5), (3, 4)] : List Pt).getD 1 (0, 0) =
      ((-3:ℝ), 4) from rfl, displace_v1]
  rfl

theorem distortStep_s2 :
    distortStep [((0:ℝ), 0)] [1] [25] 1
      [((3:ℝ), (4:ℝ)), (-6, 8), (0, -5), (3, 4)] ((0:ℝ), -5) =
      [((3:ℝ), (4:ℝ)), (-6, 8), (0, -10), (3, 4)] := by
  unfold distortStep
  rw [findFirst_s2]
  dsimp only
  rw [show ([((3:ℝ), (4:ℝ)), (-6, 8), (0, -5), (3, 4)] : List Pt).getD 2 (0, 0) =
      ((0:ℝ), -5) from rfl, displace_v2]
  rfl

theorem distortStep_s3 :
    distortStep [((0:ℝ), 0)] [1] [25] 1
      [((3:ℝ), (4:ℝ)), (-6, 8), (0, -10), (3, 4)] ((3:ℝ), 4) =
      [((6:ℝ), (8:ℝ)), (-6, 8), (0, -10), (3, 4)] := by
  unfold distortStep
  rw [findFirst_s3]
  dsimp only
  rw [show ([((3:ℝ), (4:ℝ)), (-6, 8), (0, -10), (3, 4)] : List Pt).getD 0 (0, 0) =
      ((3:ℝ), 4) from rfl, displace_v3]
  rfl

/-- C1: the inner loop of lines 63-87 displaces only the FIRST ring
position holding each distinct coordinate (the in-place update of line 84
writes through the view of row coord_idx[0] only) and never copies the
result to the other positions sharing that coordinate.  On a closed ring
whose first and last position hold (3, 4), the first position moves to
(6, 8) while the last keeps the stale (3, 4). -/
theorem C1_first_occurrence_only :
    distortRing [((0:ℝ), 0)] [1] [25] 1 ringC =
      [((6:ℝ), (8:ℝ)), (-6, 8), (0, -10), (3, 4)] ∧
    ringC.getD 0 (0, 0) = ringC.getD 3 (0, 0) ∧
    (distortRing [((0:ℝ), 0)] [1] [25] 1 ringC).getD 0 (0, 0) ≠
      (distortRing [((0:ℝ), 0)] [1] [25] 1 ringC).getD 3 (0, 0) := by
  have h : distortRing [((0:ℝ), 0)] [1] [25] 1 ringC =
      [((6:ℝ), (8:ℝ)), (-6, 8), (0, -10), (3, 4)] := by
    rw [distortRing, uniqueRows_ringC, List.foldl_cons, distortStep_s1,
      List.foldl_cons, distortStep_s2, List.foldl_cons, distortStep_s3,
      List.foldl_nil]
  refine ⟨h, rfl, ?_⟩
  rw [h]
  rw [show ([((6:ℝ), (8:ℝ)), (-6, 8), (0, -10), (3, 4)] : List Pt).getD 0 (0, 0) =
      ((6:ℝ), 8) from rfl,
    show ([((6:ℝ), (8:ℝ)), (-6, 8), (0, -10), (3, 4)] : List Pt).getD 3 (0, 0) =
      ((3:ℝ), 4) from rfl]
  norm_num [Prod.mk.injEq]

end Cartogram
